import Mathlib

/-!
Verification development for the kiro-guitar-tuner pitch-detection and
tuning-analysis core (`PitchDetector.ts`, `TunerEngine.ts`, `types.ts`).

Numeric model: the detection pipeline (filtering, autocorrelation, peak
selection, confidence scoring, parabolic interpolation) uses only field
operations and order comparisons, so it is embedded over `ℚ`, which keeps
every definition executable and every concrete instance decidable.  The
cents computation of the tuner engine needs a real logarithm, so that part
is embedded over `ℝ`.  JavaScript `Float32Array`s become `List ℚ`; an
out-of-range read yields JavaScript `undefined`, whose order comparisons
are uniformly false — the embedding reads out of range with `List.getD _ 0`
only at places where the source guards the index or where the comparison
outcome agrees (noted locally).  `Math.floor` applied to the nonnegative
ratios appearing here is `Nat.floor`.
-/

namespace GuitarTuner

/-- `AudioConfig` from `types.ts` (the fields the detection core reads). -/
structure AudioConfig where
  sampleRate : ℚ
  bufferSize : ℕ
  minVolumeThreshold : ℚ
  maxFrequency : ℚ
  minFrequency : ℚ
deriving DecidableEq

/-- `DEFAULT_AUDIO_CONFIG` from `types.ts`. -/
def DEFAULT_AUDIO_CONFIG : AudioConfig :=
  { sampleRate := 44100
    bufferSize := 4096
    minVolumeThreshold := 1/100
    maxFrequency := 400
    minFrequency := 70 }

/-- The recursive tail of the single-pole IIR low-pass of
`applyGuitarFrequencyFilter`: given the previous output sample `y`,
produce `filtered[i] = alpha * filtered[i-1] + (1 - alpha) * buffer[i]`
with `alpha = 0.8`. -/
def iirTail (y : ℚ) : List ℚ → List ℚ
  | [] => []
  | x :: xs =>
    let y2 := 4/5 * y + 1/5 * x
    y2 :: iirTail y2 xs

/-- The low-pass stage of `applyGuitarFrequencyFilter`:
`filtered[0] = buffer[0]`, then the IIR recurrence. -/
def iirFilter : List ℚ → List ℚ
  | [] => []
  | x :: xs => x :: iirTail x xs

/-- `PitchDetector.applyGuitarFrequencyFilter`: IIR low-pass, then
subtraction of the arithmetic mean of the filtered signal (DC removal).
For the empty buffer the mean expression is junk (`0/0`), exactly as the
source's `NaN` mean is never used there: no sample gets adjusted. -/
def applyGuitarFrequencyFilter (buffer : List ℚ) : List ℚ :=
  let filtered := iirFilter buffer
  let mean := filtered.sum / (filtered.length : ℚ)
  filtered.map (fun v => v - mean)

/-- `PitchDetector.autocorrelate`: mean-center the buffer, normalize by the
sum of squares, and emit one correlation per lag in `[0, ⌊N/2⌋)`.  When the
sum of squares is zero the zero-initialized array is returned unchanged. -/
def autocorrelate (buffer : List ℚ) : List ℚ :=
  let n := buffer.length
  let mean := buffer.sum / (n : ℚ)
  let centered := buffer.map (fun v => v - mean)
  let sumSquares := (centered.map (fun v => v * v)).sum
  if sumSquares = 0 then
    List.replicate (n / 2) 0
  else
    (List.range (n / 2)).map (fun lag =>
      (((List.range (n - lag)).map
        (fun i => centered.getD i 0 * centered.getD (i + lag) 0)).sum) / sumSquares)

/-- `minPeriod = Math.floor(sampleRate / config.maxFrequency)`. -/
def minPeriodOf (sampleRate : ℚ) (config : AudioConfig) : ℕ :=
  ⌊sampleRate / config.maxFrequency⌋₊

/-- `maxPeriod = Math.floor(sampleRate / config.minFrequency)`. -/
def maxPeriodOf (sampleRate : ℚ) (config : AudioConfig) : ℕ :=
  ⌊sampleRate / config.minFrequency⌋₊

/-- The periods scanned by the peak-detection loop of
`findFundamentalFrequencyWithConfidence`:
`for (period = minPeriod; period < Math.min(maxPeriod, correlations.length - 1); period++)`. -/
def periodScanList (sampleRate : ℚ) (config : AudioConfig) (corr : List ℚ) : List ℕ :=
  let lo := minPeriodOf sampleRate config
  let hi := min (maxPeriodOf sampleRate config) (corr.length - 1)
  List.range' lo (hi - lo)

/-- The strict-local-maximum test of the peak-detection loop:
`correlations[period] > correlations[period-1] && correlations[period] > correlations[period+1]`.
At `period = 0` the source compares against `correlations[-1]` (i.e.
`undefined`, comparison false); here `0 - 1 = 0` makes the first conjunct
`c[0] > c[0]`, false as well. -/
def isLocalMax (corr : List ℚ) (period : ℕ) : Prop :=
  corr.getD (period - 1) 0 < corr.getD period 0 ∧
  corr.getD (period + 1) 0 < corr.getD period 0

instance (corr : List ℚ) (period : ℕ) : Decidable (isLocalMax corr period) := by
  unfold isLocalMax; infer_instance

/-- One iteration of the peak-detection loop, acting on the state
`(maxCorrelation, bestPeriod, secondBestCorrelation)`. -/
def peakStep (corr : List ℚ) (st : ℚ × ℕ × ℚ) (period : ℕ) : ℚ × ℕ × ℚ :=
  let c := corr.getD period 0
  if isLocalMax corr period then
    if st.1 < c then (c, period, st.1)
    else if st.2.2 < c then (st.1, st.2.1, c)
    else st
  else st

/-- The complete peak-detection loop of
`findFundamentalFrequencyWithConfidence`, started from
`maxCorrelation = 0`, `bestPeriod = 0`, `secondBestCorrelation = 0`. -/
def peakScanResult (sampleRate : ℚ) (config : AudioConfig) (corr : List ℚ) : ℚ × ℕ × ℚ :=
  (periodScanList sampleRate config corr).foldl (peakStep corr) (0, 0, 0)

/-- The peak-selection portion of `findFundamentalFrequencyWithConfidence`
(the scan followed by the `maxCorrelation < 0.15 || bestPeriod === 0`
rejection), returning the selected period and its correlation value. -/
def selectPeak (sampleRate : ℚ) (config : AudioConfig) (corr : List ℚ) : Option (ℕ × ℚ) :=
  let st := peakScanResult sampleRate config corr
  if st.1 < 3/20 ∨ st.2.1 = 0 then none else some (st.2.1, st.1)

/-- `PitchDetector.parabolicInterpolation`.  The boundary fallback divides
by `peakIndex` even when it is `0` (the source then yields `Infinity`; the
`ℚ` embedding yields the junk value `0` — the orchestrator only calls this
with a selected, hence positive, period). -/
def parabolicInterpolation (sampleRate : ℚ) (corr : List ℚ) (peakIndex : ℕ) : ℚ :=
  if peakIndex = 0 ∨ corr.length ≤ peakIndex + 1 then
    sampleRate / (peakIndex : ℚ)
  else
    let y1 := corr.getD (peakIndex - 1) 0
    let y2 := corr.getD peakIndex 0
    let y3 := corr.getD (peakIndex + 1) 0
    let a := (y1 - 2 * y2 + y3) / 2
    let b := (y3 - y1) / 2
    if a = 0 then sampleRate / (peakIndex : ℚ)
    else sampleRate / ((peakIndex : ℚ) + (-b / (2 * a)))

/-- The harmonic periods `⌊bestPeriod / h⌋`, `h ∈ {2,3,4}`, that pass the
window guard `harmonicPeriod >= windowSize && harmonicPeriod < correlations.length - windowSize`
(`windowSize = 3`) in `calculateConsistencyBonus`. -/
def harmonicChecks (corr : List ℚ) (bestPeriod : ℕ) : List ℕ :=
  [2, 3, 4].filterMap (fun h =>
    let hp := bestPeriod / h
    if 3 ≤ hp ∧ hp < corr.length - 3 then some hp else none)

/-- `PitchDetector.calculateConsistencyBonus`: the fraction of checked
harmonic periods whose correlation exceeds the average of its two
neighbours by more than 10%. -/
def calculateConsistencyBonus (corr : List ℚ) (bestPeriod : ℕ) : ℚ :=
  let hps := harmonicChecks corr bestPeriod
  let consistent := hps.countP (fun hp =>
    decide ((corr.getD (hp - 1) 0 + corr.getD (hp + 1) 0) / 2 * (11/10) < corr.getD hp 0))
  if 0 < hps.length then (consistent : ℚ) / (hps.length : ℚ) else 0

/-- `PitchDetector.calculateConfidence`: base confidence is the peak
correlation, scaled by the dominance factor, a low-frequency bump, and the
consistency bonus, finally clamped to at most 1. -/
def calculateConfidence (sampleRate : ℚ) (maxCorrelation secondBestCorrelation : ℚ)
    (corr : List ℚ) (bestPeriod : ℕ) : ℚ :=
  let r := if 0 < secondBestCorrelation
    then maxCorrelation / secondBestCorrelation else maxCorrelation
  let c1 := maxCorrelation * min (r / 2) 1
  let frequency := sampleRate / (bestPeriod : ℚ)
  let c2 := if frequency < 150 then c1 * (11/10) else c1
  let bonus := calculateConsistencyBonus corr bestPeriod
  let c3 := c2 * (1 + bonus * (1/5))
  min c3 1

/-- `PitchDetector.findFundamentalFrequencyWithConfidence`: scan for the
best local-maximum peak, reject weak or absent peaks, then return the
interpolated frequency together with the confidence score. -/
def findFundamentalFrequencyWithConfidence (sampleRate : ℚ) (config : AudioConfig)
    (corr : List ℚ) : Option (ℚ × ℚ) :=
  let st := peakScanResult sampleRate config corr
  if st.1 < 3/20 ∨ st.2.1 = 0 then none
  else some (parabolicInterpolation sampleRate corr st.2.1,
             calculateConfidence sampleRate st.1 st.2.2 corr st.2.1)

/-- `PitchDetector.detectPitch`: the full pipeline with the guitar-band
range check and the `confidence < 0.3` floor. -/
def detectPitch (sampleRate : ℚ) (config : AudioConfig) (buffer : List ℚ) : Option ℚ :=
  if buffer.length = 0 then none
  else
    match findFundamentalFrequencyWithConfidence sampleRate config
        (autocorrelate (applyGuitarFrequencyFilter buffer)) with
    | none => none
    | some (frequency, confidence) =>
      if frequency < config.minFrequency ∨ config.maxFrequency < frequency then none
      else if confidence < 3/10 then none
      else some frequency

/-- `PitchDetector.detectPitchWithConfidence`: the same pipeline and range
check, without the confidence floor. -/
def detectPitchWithConfidence (sampleRate : ℚ) (config : AudioConfig)
    (buffer : List ℚ) : Option (ℚ × ℚ) :=
  if buffer.length = 0 then none
  else
    match findFundamentalFrequencyWithConfidence sampleRate config
        (autocorrelate (applyGuitarFrequencyFilter buffer)) with
    | none => none
    | some (frequency, confidence) =>
      if frequency < config.minFrequency ∨ config.maxFrequency < frequency then none
      else some (frequency, confidence)

/-! ### Tuner engine (`TunerEngine.ts`, `types.ts`)

The cents formula uses a base-2 logarithm, so this part of the embedding
lives over `ℝ`. -/

/-- `NoteData` from `types.ts`.  `cents` is an integer because the source
stores the result of `Math.round`. -/
structure NoteData where
  frequency : ℝ
  note : String
  cents : ℤ
  isInTune : Bool
  confidence : ℝ

/-- `GUITAR_TUNING` from `types.ts`, as an association list in the object
key order of the source (which is already ascending in frequency). -/
noncomputable def GUITAR_TUNING : List (String × ℝ) :=
  [("E2", 82.41), ("A2", 110), ("D3", 146.83),
   ("G3", 196), ("B3", 246.94), ("E4", 329.63)]

/-- The `guitarNotes` field built by the `TunerEngine` constructor: the
tuning table sorted by ascending frequency.  The table above is already
ascending, so the sort is the identity on it. -/
noncomputable def guitarNotes : List (String × ℝ) := GUITAR_TUNING

/-- `TUNING_TOLERANCE_CENTS` from `types.ts`. -/
def TUNING_TOLERANCE_CENTS : ℤ := 5

/-- JavaScript `Math.round` on a real argument: the integer nearest to `x`,
ties resolved toward positive infinity, i.e. `⌊x + 1/2⌋`. -/
noncomputable def jsRound (x : ℝ) : ℤ := ⌊x + 1/2⌋

/-- One iteration of the closest-note search of
`TunerEngine.getClosestGuitarNote`, acting on the accumulator
`(closestNote entry, minDifference)`: update only on strict improvement. -/
noncomputable def closestStep (frequency : ℝ) (acc : (String × ℝ) × ℝ)
    (nd : String × ℝ) : (String × ℝ) × ℝ :=
  if |frequency - nd.2| < acc.2 then (nd, |frequency - nd.2|) else acc

/-- `TunerEngine.getClosestGuitarNote`: start from the first (lowest)
table entry and keep the entry minimizing `|frequency - entry.frequency|`. -/
noncomputable def getClosestGuitarNote (frequency : ℝ) : String :=
  let first := guitarNotes.headD ("E2", 82.41)
  (guitarNotes.foldl (closestStep frequency) (first, |frequency - first.2|)).1.1

/-- The table lookup `GUITAR_TUNING[closestNote]` of `TunerEngine.analyzeNote`. -/
noncomputable def noteFreq (note : String) : ℝ :=
  ((GUITAR_TUNING.lookup note).getD 0)

/-- `TunerEngine.calculateCentsDifference`:
`Math.round(1200 * Math.log2(frequency / targetFrequency))`. -/
noncomputable def calculateCentsDifference (frequency targetFrequency : ℝ) : ℤ :=
  jsRound (1200 * Real.logb 2 (frequency / targetFrequency))

/-- `TunerEngine.analyzeNote`. -/
noncomputable def analyzeNote (frequency : ℝ) (confidence : ℝ) : NoteData :=
  let closestNote := getClosestGuitarNote frequency
  let targetFrequency := noteFreq closestNote
  let cents := calculateCentsDifference frequency targetFrequency
  { frequency := frequency
    note := closestNote
    cents := cents
    isInTune := decide (|cents| ≤ TUNING_TOLERANCE_CENTS)
    confidence := confidence }

/-! ### Definitions following the spec's words

These re-state parts of the *specification* (not the source) so that the
source-derived definitions above can be compared against them. -/

/-- Modelled from the spec: rounding that is round-half-away-from-zero at
the 0.5 boundary, as claimed for the cents computation. -/
noncomputable def roundHalfAwayFromZero (x : ℝ) : ℤ :=
  if 0 ≤ x then ⌊x + 1/2⌋ else -⌊-x + 1/2⌋

/-- The candidate-lag predicate of the peak-detection loop as the *code*
has it: `minPeriod ≤ L`, `L < min(maxPeriod, correlations.length - 1)`
(the loop bound is exclusive), and `L` a strict local maximum. -/
def codeCandidate (sampleRate : ℚ) (config : AudioConfig) (corr : List ℚ) (L : ℕ) : Prop :=
  minPeriodOf sampleRate config ≤ L ∧
  L < min (maxPeriodOf sampleRate config) (corr.length - 1) ∧
  isLocalMax corr L

instance (sampleRate : ℚ) (config : AudioConfig) (corr : List ℚ) (L : ℕ) :
    Decidable (codeCandidate sampleRate config corr L) := by
  unfold codeCandidate; infer_instance

/-- Modelled from the spec: the candidate-lag predicate as the *claim*
states it, `minPeriod ≤ L ≤ min(maxPeriod, len(correlations) - 2)` with the
strict local-maximum condition. -/
def claimCandidate (sampleRate : ℚ) (config : AudioConfig) (corr : List ℚ) (L : ℕ) : Prop :=
  minPeriodOf sampleRate config ≤ L ∧
  L ≤ min (maxPeriodOf sampleRate config) (corr.length - 2) ∧
  isLocalMax corr L

instance (sampleRate : ℚ) (config : AudioConfig) (corr : List ℚ) (L : ℕ) :
    Decidable (claimCandidate sampleRate config corr L) := by
  unfold claimCandidate; infer_instance

/-- Modelled from the spec: the confidence formula as the claim states it,
with a dominance factor that equals `1` whenever no runner-up peak exists
(`secondBestCorrelation = 0`). -/
def confidenceClaimed (sampleRate : ℚ) (maxCorrelation secondBestCorrelation : ℚ)
    (corr : List ℚ) (bestPeriod : ℕ) : ℚ :=
  let dominance := if secondBestCorrelation = 0 then 1
    else min (maxCorrelation / secondBestCorrelation / 2) 1
  let lowFreq := if sampleRate / (bestPeriod : ℚ) < 150 then (11/10 : ℚ) else 1
  min (maxCorrelation * dominance * lowFreq
        * (1 + (1/5) * calculateConsistencyBonus corr bestPeriod)) 1

/-- The index-level recurrence for the low-pass stage, as the spec states
it: `y[0] = x[0]`, `y[i] = 0.8 * y[i-1] + 0.2 * x[i]`. -/
def iirSpec (x : List ℚ) : ℕ → ℚ
  | 0 => x.getD 0 0
  | i + 1 => 4/5 * iirSpec x i + 1/5 * x.getD (i + 1) 0

/-- The mean-centered sample `centered[i]` of `autocorrelate`, written
directly from the claim's formula. -/
def centeredAt (buffer : List ℚ) (i : ℕ) : ℚ :=
  buffer.getD i 0 - buffer.sum / (buffer.length : ℚ)

/-- The normalization denominator of `autocorrelate`: the sum of squares
of the mean-centered samples. -/
def centeredSumSq (buffer : List ℚ) : ℚ :=
  ∑ i ∈ Finset.range buffer.length, centeredAt buffer i ^ 2

/-- Auxiliary closed form for the IIR recurrence continued after a first
output sample `y` over the remaining input `xs`. -/
def iirAux (y : ℚ) (xs : List ℚ) : ℕ → ℚ
  | 0 => 4/5 * y + 1/5 * xs.getD 0 0
  | i + 1 => 4/5 * iirAux y xs i + 1/5 * xs.getD (i + 1) 0

/-- Loop invariant of the peak-detection scan: after processing the lags in
`P`, the state `(maxCorrelation, bestPeriod, secondBestCorrelation)` has a
nonnegative maximum that dominates every strict local maximum seen so far,
and the best period is either still the initial `0` (with maximum `0`) or a
processed strict local maximum realising the maximum. -/
def scanInv (corr : List ℚ) (P : List ℕ) (st : ℚ × ℕ × ℚ) : Prop :=
  0 ≤ st.1 ∧
  (∀ L ∈ P, isLocalMax corr L → corr.getD L 0 ≤ st.1) ∧
  ((st.1 = 0 ∧ st.2.1 = 0) ∨
    (st.2.1 ∈ P ∧ isLocalMax corr st.2.1 ∧ corr.getD st.2.1 0 = st.1 ∧ 0 < st.1))

/-! ### Supporting lemmas -/

lemma getD_map_of_lt (f : ℚ → ℚ) (l : List ℚ) (i : ℕ) (h : i < l.length) :
    (l.map f).getD i 0 = f (l.getD i 0) := by
  rw [List.getD_eq_getElem _ _ (by simpa using h), List.getD_eq_getElem _ _ h,
    List.getElem_map]

lemma list_sum_eq_sum_getD (l : List ℚ) :
    l.sum = ∑ i ∈ Finset.range l.length, l.getD i 0 := by
  induction l with
  | nil => simp
  | cons a t ih =>
    rw [List.sum_cons, List.length_cons, Finset.sum_range_succ']
    simp only [List.getD_cons_succ, List.getD_cons_zero]
    rw [← ih]; ring

lemma range_map_sum (m : ℕ) (g : ℕ → ℚ) :
    ((List.range m).map g).sum = ∑ i ∈ Finset.range m, g i := by
  induction m with
  | zero => simp
  | succ k ih => rw [List.range_succ, Finset.sum_range_succ, List.map_append, List.sum_append, ih]; simp

lemma iirTail_length (y : ℚ) (xs : List ℚ) : (iirTail y xs).length = xs.length := by
  induction xs generalizing y with
  | nil => rfl
  | cons a t ih => simp [iirTail, ih]

lemma iirFilter_length (x : List ℚ) : (iirFilter x).length = x.length := by
  cases x with
  | nil => rfl
  | cons a t => simp [iirFilter, iirTail_length]

lemma iirAux_shift (y a : ℚ) (xs : List ℚ) (i : ℕ) :
    iirAux y (a :: xs) (i + 1) = iirAux (4/5 * y + 1/5 * a) xs i := by
  induction i with
  | zero => simp [iirAux]
  | succ k ih => rw [iirAux, ih, List.getD_cons_succ]; rfl

lemma iirTail_getD (xs : List ℚ) : ∀ (y : ℚ) (i : ℕ), i < xs.length →
    (iirTail y xs).getD i 0 = iirAux y xs i := by
  induction xs with
  | nil => intro y i h; simp at h
  | cons a t ih =>
    intro y i h
    cases i with
    | zero => simp [iirTail, iirAux]
    | succ k =>
      rw [iirTail, List.getD_cons_succ, ih _ k (by simpa using h), iirAux_shift]

lemma iirSpec_succ (a : ℚ) (xs : List ℚ) (i : ℕ) :
    iirSpec (a :: xs) (i + 1) = iirAux a xs i := by
  induction i with
  | zero => simp [iirSpec, iirAux]
  | succ k ih => rw [iirSpec, ih, List.getD_cons_succ]; rfl

lemma iirFilter_getD (x : List ℚ) (i : ℕ) (h : i < x.length) :
    (iirFilter x).getD i 0 = iirSpec x i := by
  cases x with
  | nil => simp at h
  | cons a t =>
    cases i with
    | zero => simp [iirFilter, iirSpec]
    | succ k =>
      rw [iirFilter, List.getD_cons_succ, iirTail_getD _ _ _ (by simpa using h),
        iirSpec_succ]

lemma isLocalMax_zero (corr : List ℚ) : ¬ isLocalMax corr 0 := by
  intro h
  exact lt_irrefl _ h.1

lemma scanInv_step (corr : List ℚ) (P : List ℕ) (st : ℚ × ℕ × ℚ) (p : ℕ)
    (h : scanInv corr P st) : scanInv corr (P ++ [p]) (peakStep corr st p) := by
  simp only [scanInv] at h
  obtain ⟨h0, hmax, hbest⟩ := h
  have hmem : ∀ L ∈ P, L ∈ P ++ [p] := fun L hL => List.mem_append_left _ hL
  have hpmem : p ∈ P ++ [p] := List.mem_append_right _ (List.mem_singleton.2 rfl)
  simp only [scanInv, peakStep]
  split_ifs with hlm h1 h2
  · refine ⟨h0.trans h1.le, ?_, Or.inr ⟨hpmem, hlm, rfl, h0.trans_lt h1⟩⟩
    intro L hL hLlm
    rcases List.mem_append.1 hL with hL' | hL'
    · exact (hmax L hL' hLlm).trans h1.le
    · have hLp : L = p := by simpa using hL'
      subst hLp; exact le_rfl
  · refine ⟨h0, ?_, ?_⟩
    · intro L hL hLlm
      rcases List.mem_append.1 hL with hL' | hL'
      · exact hmax L hL' hLlm
      · have hLp : L = p := by simpa using hL'
        subst hLp; exact not_lt.1 h1
    · rcases hbest with hb | ⟨hmem', hlm', hc', hpos'⟩
      · exact Or.inl hb
      · exact Or.inr ⟨hmem _ hmem', hlm', hc', hpos'⟩
  · refine ⟨h0, ?_, ?_⟩
    · intro L hL hLlm
      rcases List.mem_append.1 hL with hL' | hL'
      · exact hmax L hL' hLlm
      · have hLp : L = p := by simpa using hL'
        subst hLp; exact not_lt.1 h1
    · rcases hbest with hb | ⟨hmem', hlm', hc', hpos'⟩
      · exact Or.inl hb
      · exact Or.inr ⟨hmem _ hmem', hlm', hc', hpos'⟩
  · refine ⟨h0, ?_, ?_⟩
    · intro L hL hLlm
      rcases List.mem_append.1 hL with hL' | hL'
      · exact hmax L hL' hLlm
      · have hLp : L = p := by simpa using hL'
        subst hLp; exact absurd hLlm hlm
    · rcases hbest with hb | ⟨hmem', hlm', hc', hpos'⟩
      · exact Or.inl hb
      · exact Or.inr ⟨hmem _ hmem', hlm', hc', hpos'⟩

lemma scanInv_foldl (corr : List ℚ) (ps : List ℕ) :
    ∀ (P : List ℕ) (st : ℚ × ℕ × ℚ), scanInv corr P st →
      scanInv corr (P ++ ps) (ps.foldl (peakStep corr) st) := by
  induction ps with
  | nil => intro P st h; simpa using h
  | cons p ps ih =>
    intro P st h
    have h' := scanInv_step corr P st p h
    have h2 := ih (P ++ [p]) _ h'
    simpa [List.append_assoc] using h2

lemma scanInv_result (sampleRate : ℚ) (config : AudioConfig) (corr : List ℚ) :
    scanInv corr (periodScanList sampleRate config corr)
      (peakScanResult sampleRate config corr) := by
  have h0 : scanInv corr [] (0, 0, 0) := by
    simp only [scanInv]
    exact ⟨le_rfl, by simp, Or.inl ⟨trivial, trivial⟩⟩
  have h := scanInv_foldl corr (periodScanList sampleRate config corr) [] (0, 0, 0) h0
  simpa [peakScanResult] using h

lemma mem_periodScanList (sampleRate : ℚ) (config : AudioConfig) (corr : List ℚ) (L : ℕ) :
    L ∈ periodScanList sampleRate config corr ↔
      minPeriodOf sampleRate config ≤ L ∧
        L < min (maxPeriodOf sampleRate config) (corr.length - 1) := by
  simp only [periodScanList]
  rw [List.mem_range'_1]
  omega

lemma selectPeak_some (sampleRate : ℚ) (config : AudioConfig) (corr : List ℚ)
    (p : ℕ) (m : ℚ) (h : selectPeak sampleRate config corr = some (p, m)) :
    (minPeriodOf sampleRate config ≤ p ∧
      p < min (maxPeriodOf sampleRate config) (corr.length - 1)) ∧
    isLocalMax corr p ∧ corr.getD p 0 = m ∧ 3/20 ≤ m ∧
    ∀ L ∈ periodScanList sampleRate config corr, isLocalMax corr L →
      corr.getD L 0 ≤ m := by
  have inv := scanInv_result sampleRate config corr
  simp only [scanInv] at inv
  obtain ⟨h0, hmax, hbest⟩ := inv
  simp only [selectPeak] at h
  by_cases hc : (peakScanResult sampleRate config corr).1 < 3/20 ∨
      (peakScanResult sampleRate config corr).2.1 = 0
  · rw [if_pos hc] at h; exact absurd h (by simp)
  · rw [if_neg hc] at h
    push_neg at hc
    obtain ⟨hge, hne⟩ := hc
    simp only [Option.some.injEq, Prod.mk.injEq] at h
    obtain ⟨hp, hm⟩ := h
    rcases hbest with ⟨_, hz2⟩ | ⟨hmem, hlm, hcorr, _⟩
    · exact absurd hz2 hne
    · subst hp; subst hm
      refine ⟨(mem_periodScanList sampleRate config corr _).1 hmem, hlm, hcorr,
        hge, ?_⟩
      intro L hL hLlm
      exact hmax L hL hLlm

lemma selectPeak_none_iff (sampleRate : ℚ) (config : AudioConfig) (corr : List ℚ) :
    selectPeak sampleRate config corr = none ↔
      ∀ L ∈ periodScanList sampleRate config corr, isLocalMax corr L →
        corr.getD L 0 < 3/20 := by
  have inv := scanInv_result sampleRate config corr
  simp only [scanInv] at inv
  obtain ⟨h0, hmax, hbest⟩ := inv
  simp only [selectPeak]
  by_cases hc : (peakScanResult sampleRate config corr).1 < 3/20 ∨
      (peakScanResult sampleRate config corr).2.1 = 0
  · rw [if_pos hc]
    have hlt : (peakScanResult sampleRate config corr).1 < 3/20 := by
      rcases hc with hc | hc
      · exact hc
      · rcases hbest with ⟨hz, _⟩ | ⟨_, hlm, _, _⟩
        · rw [hz]; norm_num
        · rw [hc] at hlm; exact absurd hlm (isLocalMax_zero corr)
    constructor
    · intro _ L hL hLlm
      exact (hmax L hL hLlm).trans_lt hlt
    · intro _; rfl
  · rw [if_neg hc]
    push_neg at hc
    obtain ⟨hge, hne⟩ := hc
    constructor
    · intro h; exact absurd h (by simp)
    · intro hall
      exfalso
      rcases hbest with ⟨_, hz2⟩ | ⟨hmem, hlm, hcorr, _⟩
      · exact hne hz2
      · have hLb := hall _ hmem hlm
        rw [hcorr] at hLb
        exact absurd hge (not_le.2 hLb)

lemma sumSquares_eq (buffer : List ℚ) :
    ((buffer.map (fun v => v - buffer.sum / (buffer.length : ℚ))).map
      (fun v => v * v)).sum = centeredSumSq buffer := by
  rw [list_sum_eq_sum_getD, List.length_map, List.length_map]
  unfold centeredSumSq
  apply Finset.sum_congr rfl
  intro i hi
  have hi' : i < buffer.length := Finset.mem_range.1 hi
  rw [getD_map_of_lt _ _ _ (by simpa using hi'), getD_map_of_lt _ _ _ hi']
  unfold centeredAt
  ring

lemma iirFilter_sum (x : List ℚ) :
    (iirFilter x).sum = ∑ j ∈ Finset.range x.length, iirSpec x j := by
  rw [list_sum_eq_sum_getD, iirFilter_length]
  exact Finset.sum_congr rfl (fun j hj => iirFilter_getD _ _ (Finset.mem_range.1 hj))

/-! ### Claim theorems -/

/-- C5: `autocorrelate` returns an array of length `⌊N/2⌋`; it is all
zeros when the centered sum of squares vanishes, and otherwise entry
`L` is the overlap sum of the centered signal against its `L`-shifted copy,
divided by the sum of squares. -/
theorem autocorrelate_matches_spec (buffer : List ℚ) :
    (autocorrelate buffer).length = buffer.length / 2 ∧
    (centeredSumSq buffer = 0 →
      autocorrelate buffer = List.replicate (buffer.length / 2) 0) ∧
    (centeredSumSq buffer ≠ 0 → ∀ L, L < buffer.length / 2 →
      (autocorrelate buffer).getD L 0 =
        (∑ i ∈ Finset.range (buffer.length - L),
          centeredAt buffer i * centeredAt buffer (i + L)) / centeredSumSq buffer) := by
  simp only [autocorrelate]
  rw [sumSquares_eq]
  by_cases hS : centeredSumSq buffer = 0
  · rw [if_pos hS]
    refine ⟨by simp, fun _ => rfl, fun h => absurd hS h⟩
  · rw [if_neg hS]
    refine ⟨by simp, fun h => absurd h hS, ?_⟩
    intro _ L hL
    rw [List.getD_eq_getElem _ _ (by simpa using hL), List.getElem_map,
      List.getElem_range]
    congr 1
    rw [range_map_sum]
    apply Finset.sum_congr rfl
    intro i hi
    have hi' : i < buffer.length - L := Finset.mem_range.1 hi
    have hL' : L ≤ buffer.length := le_of_lt (lt_of_lt_of_le hL (Nat.div_le_self _ _))
    rw [getD_map_of_lt _ _ _ (by omega), getD_map_of_lt _ _ _ (by omega)]
    rfl

/-- C5 witness: concrete evaluation of the nonzero branch on the two-sample
buffer `[1, -1]`. -/
theorem autocorrelate_matches_spec_witness :
    centeredSumSq [(1 : ℚ), -1] ≠ 0 ∧
    (autocorrelate [(1 : ℚ), -1]).getD 0 0 =
      (∑ i ∈ Finset.range (([(1 : ℚ), -1] : List ℚ).length - 0),
        centeredAt [(1 : ℚ), -1] i * centeredAt [(1 : ℚ), -1] (i + 0))
        / centeredSumSq [(1 : ℚ), -1] :=
  ⟨by norm_num [centeredSumSq, centeredAt, Finset.sum_range_succ],
   (autocorrelate_matches_spec [(1 : ℚ), -1]).2.2
     (by norm_num [centeredSumSq, centeredAt, Finset.sum_range_succ]) 0 (by decide)⟩

/-- C6 (amended): the preprocessing filter keeps the length, follows the
IIR recurrence followed by mean subtraction, and is the identity on the
empty frame; on a one-sample frame it returns `[0]` (the DC removal
subtracts the sample from itself), not the identity. -/
theorem filter_matches_spec (x : List ℚ) :
    (applyGuitarFrequencyFilter x).length = x.length ∧
    applyGuitarFrequencyFilter ([] : List ℚ) = [] ∧
    ∀ i, i < x.length → (applyGuitarFrequencyFilter x).getD i 0 =
      iirSpec x i - (∑ j ∈ Finset.range x.length, iirSpec x j) / (x.length : ℚ) := by
  refine ⟨by simp [applyGuitarFrequencyFilter, iirFilter_length], rfl, ?_⟩
  intro i hi
  simp only [applyGuitarFrequencyFilter]
  rw [getD_map_of_lt _ _ _ (by rw [iirFilter_length]; exact hi),
    iirFilter_getD _ _ hi, iirFilter_length, iirFilter_sum]

/-- C6 witness: concrete evaluation of the recurrence-plus-mean-subtraction
characterization at index 1 of the frame `[1, 2]`. -/
theorem filter_matches_spec_witness :
    (applyGuitarFrequencyFilter [(1 : ℚ), 2]).getD 1 0 =
      iirSpec [(1 : ℚ), 2] 1 -
        (∑ j ∈ Finset.range (([(1 : ℚ), 2] : List ℚ).length), iirSpec [(1 : ℚ), 2] j)
          / ((([(1 : ℚ), 2] : List ℚ).length : ℚ)) :=
  (filter_matches_spec [(1 : ℚ), 2]).2.2 1 (by decide)

/-- C6 counterexample: on the one-sample frame `[1]` the filter returns
`[0]`, so it is not the identity there, refuting the claim's
"identity for length 1". -/
theorem filter_singleton_counterexample :
    applyGuitarFrequencyFilter [(1 : ℚ)] = [0] ∧
    applyGuitarFrequencyFilter [(1 : ℚ)] ≠ [1] := by
  constructor <;> norm_num [applyGuitarFrequencyFilter, iirFilter, iirTail]

/-- C7: the sub-sample refiner returns `sampleRate / p` at a boundary index
or when the interpolation coefficient `a` vanishes, and otherwise
`sampleRate / (p + (-b / (2a)))` with `a = (y1 - 2y2 + y3)/2`,
`b = (y3 - y1)/2`. -/
theorem parabolicInterpolation_spec (sampleRate : ℚ) (corr : List ℚ) (p : ℕ) :
    (p = 0 ∨ corr.length ≤ p + 1 →
      parabolicInterpolation sampleRate corr p = sampleRate / (p : ℚ)) ∧
    (0 < p → p + 1 < corr.length →
      ((corr.getD (p - 1) 0 - 2 * corr.getD p 0 + corr.getD (p + 1) 0) / 2 = 0 →
        parabolicInterpolation sampleRate corr p = sampleRate / (p : ℚ)) ∧
      ((corr.getD (p - 1) 0 - 2 * corr.getD p 0 + corr.getD (p + 1) 0) / 2 ≠ 0 →
        parabolicInterpolation sampleRate corr p =
          sampleRate / ((p : ℚ) +
            (-((corr.getD (p + 1) 0 - corr.getD (p - 1) 0) / 2) /
              (2 * ((corr.getD (p - 1) 0 - 2 * corr.getD p 0
                + corr.getD (p + 1) 0) / 2)))))) := by
  constructor
  · intro h
    simp only [parabolicInterpolation]
    rw [if_pos h]
  · intro hp hlen
    have hcond : ¬ (p = 0 ∨ corr.length ≤ p + 1) := by omega
    constructor
    · intro ha
      simp only [parabolicInterpolation]
      rw [if_neg hcond, if_pos ha]
    · intro ha
      simp only [parabolicInterpolation]
      rw [if_neg hcond, if_neg ha]

/-- C7 witness: for `corr = [0, 1, 0]` and `p = 1` the interpolation takes
the non-degenerate branch and evaluates to `sampleRate / 1 = 2`. -/
theorem parabolicInterpolation_spec_witness :
    parabolicInterpolation 2 [(0 : ℚ), 1, 0] 1 = 2 := by
  rw [((parabolicInterpolation_spec 2 [(0 : ℚ), 1, 0] 1).2 (by decide)
    (by decide)).2 (by norm_num [List.getD])]
  norm_num [List.getD]

/-- C3 (amended): the confidence is the peak correlation times the
dominance factor, the low-frequency bump and the consistency factor,
clamped to 1 — where the dominance factor for a missing runner-up
(`secondBestCorrelation = 0`, more precisely any nonpositive value) is
`min (maxCorrelation / 2) 1`, not 1. -/
theorem calculateConfidence_formula (sampleRate maxCorrelation secondBestCorrelation : ℚ)
    (corr : List ℚ) (bestPeriod : ℕ) :
    calculateConfidence sampleRate maxCorrelation secondBestCorrelation corr bestPeriod =
      min (maxCorrelation *
        (if 0 < secondBestCorrelation
          then min (maxCorrelation / secondBestCorrelation / 2) 1
          else min (maxCorrelation / 2) 1) *
        (if sampleRate / (bestPeriod : ℚ) < 150 then (11/10 : ℚ) else 1) *
        (1 + calculateConsistencyBonus corr bestPeriod * (1/5))) 1 := by
  simp only [calculateConfidence]
  split_ifs with h1 h2 <;> ring_nf

/-- C3 counterexample: with `maxCorrelation = 0.8`, no runner-up
(`secondBestCorrelation = 0`), implied frequency `200 Hz` and no
consistency bonus, the source computes `0.8 * min(0.8/2, 1) = 0.32`,
while the claim's formula (dominance factor 1 with no runner-up)
predicts `0.8`. -/
theorem calculateConfidence_claim_counterexample :
    calculateConfidence 1600 (4/5) 0 [0, 0, 0, 0, 0, 0, 0] 8 = 8/25 ∧
    confidenceClaimed 1600 (4/5) 0 [0, 0, 0, 0, 0, 0, 0] 8 = 4/5 ∧
    (8/25 : ℚ) ≠ 4/5 := by
  refine ⟨?_, ?_, by norm_num⟩ <;>
    norm_num [calculateConfidence, confidenceClaimed, calculateConsistencyBonus,
      harmonicChecks, List.filterMap]

/-- C4 (amended): peak selection considers exactly the strict local maxima
among the lags `L` with `minPeriod ≤ L < min(maxPeriod, len - 1)` (the
source's loop bound is exclusive, so lag `maxPeriod` itself is never
scanned); it returns `none` exactly when every such candidate's correlation
is below `0.15` (equivalently, `bestPeriod = 0` or the best candidate is
below the threshold), and otherwise the selected period is a candidate of
maximal correlation value at least `0.15`. -/
theorem selectPeak_candidate_spec (sampleRate : ℚ) (config : AudioConfig) (corr : List ℚ) :
    (selectPeak sampleRate config corr = none ↔
      ∀ L, codeCandidate sampleRate config corr L → corr.getD L 0 < 3/20) ∧
    ∀ p m, selectPeak sampleRate config corr = some (p, m) →
      codeCandidate sampleRate config corr p ∧ m = corr.getD p 0 ∧ 3/20 ≤ m ∧
      ∀ L, codeCandidate sampleRate config corr L → corr.getD L 0 ≤ m := by
  constructor
  · rw [selectPeak_none_iff]
    constructor
    · intro h L hL
      simp only [codeCandidate] at hL
      obtain ⟨h1, h2, h3⟩ := hL
      exact h L ((mem_periodScanList _ _ _ _).2 ⟨h1, h2⟩) h3
    · intro h L hL hlm
      obtain ⟨h1, h2⟩ := (mem_periodScanList _ _ _ _).1 hL
      exact h L ⟨h1, h2, hlm⟩
  · intro p m hsome
    obtain ⟨⟨hmin, hlt⟩, hlm, hcorr, hge, hmax⟩ := selectPeak_some _ _ _ _ _ hsome
    refine ⟨⟨hmin, hlt, hlm⟩, hcorr.symm, hge, ?_⟩
    intro L hL
    simp only [codeCandidate] at hL
    obtain ⟨h1, h2, h3⟩ := hL
    exact hmax L ((mem_periodScanList _ _ _ _).2 ⟨h1, h2⟩) h3

/-- C4 counterexample: with `sampleRate = 100`, `maxFrequency = 25`,
`minFrequency = 10` we get `minPeriod = 4`, `maxPeriod = 10`; on a
20-entry correlation array whose only strict local maximum is at lag 10
with value `0.9 ≥ 0.15`, the claim's candidate range
`[minPeriod, min(maxPeriod, len-2)]` contains lag 10, yet the source's
loop (exclusive bound) never scans it and returns `none`. -/
theorem selectPeak_claim_range_counterexample :
    selectPeak 100 ⟨100, 0, 0, 25, 10⟩
      [1, 0, 0, 0, 0, 0, 0, 0, 0, 0, 9/10, 0, 0, 0, 0, 0, 0, 0, 0, 0] = none ∧
    claimCandidate 100 ⟨100, 0, 0, 25, 10⟩
      [1, 0, 0, 0, 0, 0, 0, 0, 0, 0, 9/10, 0, 0, 0, 0, 0, 0, 0, 0, 0] 10 ∧
    (3/20 : ℚ) ≤
      ([1, 0, 0, 0, 0, 0, 0, 0, 0, 0, 9/10, 0, 0, 0, 0, 0, 0, 0, 0, 0] :
        List ℚ).getD 10 0 := by
  have hmin : minPeriodOf 100 ⟨100, 0, 0, 25, 10⟩ = 4 := by
    norm_num [minPeriodOf]
  have hmax : maxPeriodOf 100 ⟨100, 0, 0, 25, 10⟩ = 10 := by
    norm_num [maxPeriodOf]
  have hlen : ([1, 0, 0, 0, 0, 0, 0, 0, 0, 0, 9/10, 0, 0, 0, 0, 0, 0, 0, 0, 0] :
      List ℚ).length = 20 := rfl
  refine ⟨?_, ?_, by norm_num⟩
  · rw [selectPeak_none_iff]
    intro L hL hlm
    rw [mem_periodScanList, hmin, hmax, hlen] at hL
    obtain ⟨hl4, hl10⟩ := hL
    have hl10' : L < 10 := by omega
    exfalso
    interval_cases L <;> norm_num [isLocalMax, List.getD] at hlm
  · exact ⟨by rw [hmin]; norm_num,
      by rw [hmax, hlen]; norm_num,
      by constructor <;> norm_num [List.getD]⟩

lemma selectPeak_witness_eq :
    selectPeak 100 ⟨100, 0, 0, 25, 10⟩
      [1, 0, 0, 0, 0, 0, 1/2, 0, 0, 0, 0, 0] = some (6, 1/2) := by
  have hmin : minPeriodOf 100 ⟨100, 0, 0, 25, 10⟩ = 4 := by
    norm_num [minPeriodOf]
  have hmax : maxPeriodOf 100 ⟨100, 0, 0, 25, 10⟩ = 10 := by
    norm_num [maxPeriodOf]
  have hlist : periodScanList 100 ⟨100, 0, 0, 25, 10⟩
      [1, 0, 0, 0, 0, 0, 1/2, 0, 0, 0, 0, 0] = [4, 5, 6, 7, 8, 9] := by
    simp only [periodScanList, hmin, hmax]
    decide
  simp only [selectPeak, peakScanResult, hlist, List.foldl_cons, List.foldl_nil]
  norm_num [peakStep, isLocalMax, List.getD]

/-- C4 witness: a correlation array with a genuine selected peak, at lag 6
with value `1/2`. -/
theorem selectPeak_candidate_spec_witness :
    (1/2 : ℚ) = ([1, 0, 0, 0, 0, 0, 1/2, 0, 0, 0, 0, 0] : List ℚ).getD 6 0 :=
  (((selectPeak_candidate_spec 100 ⟨100, 0, 0, 25, 10⟩
      [1, 0, 0, 0, 0, 0, 1/2, 0, 0, 0, 0, 0]).2 6 (1/2)
    selectPeak_witness_eq).2.1)

/-- C10: under the configuration invariant
`0 < minFrequency < maxFrequency < sampleRate / 2`, the minimum scanned
period is at least 2, and every selected best period `p` satisfies
`2 ≤ p` and `p + 1 < len(correlations)` — so the neighbour reads
`p - 1`, `p`, `p + 1` in the scan, consistency check and interpolation are
in bounds and the division `sampleRate / p` never divides by zero. -/
theorem peak_selection_index_safety (sampleRate : ℚ) (config : AudioConfig)
    (h1 : 0 < config.minFrequency) (h2 : config.minFrequency < config.maxFrequency)
    (h3 : config.maxFrequency < sampleRate / 2) :
    2 ≤ minPeriodOf sampleRate config ∧
    ∀ corr p m, selectPeak sampleRate config corr = some (p, m) →
      2 ≤ p ∧ p + 1 < corr.length ∧ ((p : ℚ) ≠ 0) := by
  have hmaxpos : 0 < config.maxFrequency := h1.trans h2
  have hmp : 2 ≤ minPeriodOf sampleRate config := by
    unfold minPeriodOf
    have hq : (2 : ℚ) ≤ sampleRate / config.maxFrequency := by
      rw [le_div_iff₀ hmaxpos]
      have h3' := (lt_div_iff₀ (by norm_num : (0 : ℚ) < 2)).1 h3
      linarith
    exact Nat.le_floor (by exact_mod_cast hq)
  refine ⟨hmp, ?_⟩
  intro corr p m hsome
  obtain ⟨⟨hmin, hlt⟩, _, _, _, _⟩ := selectPeak_some _ _ _ _ _ hsome
  have hp2 : 2 ≤ p := hmp.trans hmin
  have hplen : p + 1 < corr.length := by
    have := lt_min_iff.1 hlt
    omega
  exact ⟨hp2, hplen, Nat.cast_ne_zero.2 (by omega)⟩

/-- C10 witness: the default configuration (`minFrequency = 70`,
`maxFrequency = 400`) at 44100 Hz satisfies the invariant, giving
`minPeriod = ⌊44100/400⌋ = 110 ≥ 2`. -/
theorem peak_selection_index_safety_witness :
    2 ≤ minPeriodOf 44100 DEFAULT_AUDIO_CONFIG :=
  (peak_selection_index_safety 44100 DEFAULT_AUDIO_CONFIG
    (by norm_num [DEFAULT_AUDIO_CONFIG]) (by norm_num [DEFAULT_AUDIO_CONFIG])
    (by norm_num [DEFAULT_AUDIO_CONFIG])).1

/-- C2: `detectPitch` succeeds exactly when `detectPitchWithConfidence`
succeeds with confidence at least `0.3`; `detectPitchWithConfidence`
itself applies no confidence floor — it returns whatever in-band estimate
peak selection produced, whatever its confidence. -/
theorem detect_confidence_floor (sampleRate : ℚ) (config : AudioConfig) (buffer : List ℚ) :
    (∀ f, detectPitch sampleRate config buffer = some f ↔
      ∃ c, detectPitchWithConfidence sampleRate config buffer = some (f, c) ∧
        3/10 ≤ c) ∧
    detectPitchWithConfidence sampleRate config buffer =
      (findFundamentalFrequencyWithConfidence sampleRate config
        (autocorrelate (applyGuitarFrequencyFilter buffer))).bind
        (fun fc =>
          if config.minFrequency ≤ fc.1 ∧ fc.1 ≤ config.maxFrequency
          then some fc else none) := by
  by_cases hb : buffer.length = 0
  · have hbuf : buffer = [] := List.length_eq_zero.1 hb
    subst hbuf
    have hff : findFundamentalFrequencyWithConfidence sampleRate config
        (autocorrelate (applyGuitarFrequencyFilter [])) = none := by
      have hcorr : autocorrelate (applyGuitarFrequencyFilter ([] : List ℚ)) = [] := rfl
      rw [hcorr]
      have hscan : periodScanList sampleRate config ([] : List ℚ) = [] := by
        simp [periodScanList]
      simp only [findFundamentalFrequencyWithConfidence, peakScanResult, hscan,
        List.foldl_nil]
      norm_num
    constructor
    · intro f
      constructor
      · intro h
        simp [detectPitch] at h
      · rintro ⟨c, hc, _⟩
        simp [detectPitchWithConfidence] at hc
    · rw [hff]
      simp [detectPitchWithConfidence]
  · constructor
    · intro f
      rcases hff : findFundamentalFrequencyWithConfidence sampleRate config
          (autocorrelate (applyGuitarFrequencyFilter buffer)) with _ | ⟨f', c'⟩
      · simp [detectPitch, detectPitchWithConfidence, hb, hff]
      · by_cases hrange : f' < config.minFrequency ∨ config.maxFrequency < f'
        · simp [detectPitch, detectPitchWithConfidence, hb, hff, hrange]
        · by_cases hconf : c' < 3/10
          · simp only [detectPitch, detectPitchWithConfidence, if_neg hb, hff,
              if_neg hrange, if_pos hconf]
            constructor
            · intro h; exact absurd h (by simp)
            · rintro ⟨c, hc, hge⟩
              simp only [Option.some.injEq, Prod.mk.injEq] at hc
              exact absurd hge (not_le.2 (hc.2 ▸ hconf))
          · simp only [detectPitch, detectPitchWithConfidence, if_neg hb, hff,
              if_neg hrange, if_neg hconf]
            constructor
            · intro h
              simp only [Option.some.injEq] at h
              exact ⟨c', by rw [h], not_lt.1 hconf⟩
            · rintro ⟨c, hc, _⟩
              simp only [Option.some.injEq, Prod.mk.injEq] at hc
              rw [hc.1]
    · rcases hff : findFundamentalFrequencyWithConfidence sampleRate config
          (autocorrelate (applyGuitarFrequencyFilter buffer)) with _ | ⟨f', c'⟩
      · simp [detectPitchWithConfidence, hb, hff]
      · by_cases hrange : f' < config.minFrequency ∨ config.maxFrequency < f'
        · have hrange' : ¬ (config.minFrequency ≤ f' ∧ f' ≤ config.maxFrequency) := by
            rintro ⟨hle1, hle2⟩
            rcases hrange with h | h
            · exact absurd hle1 (not_le.2 h)
            · exact absurd hle2 (not_le.2 h)
          simp [detectPitchWithConfidence, hb, hff, hrange, hrange']
        · have hrange' : config.minFrequency ≤ f' ∧ f' ≤ config.maxFrequency := by
            push_neg at hrange
            exact hrange
          simp [detectPitchWithConfidence, hb, hff, hrange, hrange']

lemma noteFreq_E2 : noteFreq ("E2") = 82.41 := by
  simp [noteFreq, GUITAR_TUNING, List.lookup]

lemma closest_le_E2 (f : ℝ) (h : f ≤ 82.41) : getClosestGuitarNote f = "E2" := by
  have e82 : |f - (82.41 : ℝ)| = 82.41 - f := by
    rw [abs_sub_comm, abs_of_nonneg (by linarith)]
  have e110 : |f - (110 : ℝ)| = 110 - f := by
    rw [abs_sub_comm, abs_of_nonneg (by linarith)]
  have e146 : |f - (146.83 : ℝ)| = 146.83 - f := by
    rw [abs_sub_comm, abs_of_nonneg (by linarith)]
  have e196 : |f - (196 : ℝ)| = 196 - f := by
    rw [abs_sub_comm, abs_of_nonneg (by linarith)]
  have e246 : |f - (246.94 : ℝ)| = 246.94 - f := by
    rw [abs_sub_comm, abs_of_nonneg (by linarith)]
  have e329 : |f - (329.63 : ℝ)| = 329.63 - f := by
    rw [abs_sub_comm, abs_of_nonneg (by linarith)]
  have h2 : ¬ |f - (110 : ℝ)| < |f - (82.41 : ℝ)| := by
    rw [e82, e110]; intro hlt; linarith
  have h3 : ¬ |f - (146.83 : ℝ)| < |f - (82.41 : ℝ)| := by
    rw [e82, e146]; intro hlt; linarith
  have h4 : ¬ |f - (196 : ℝ)| < |f - (82.41 : ℝ)| := by
    rw [e82, e196]; intro hlt; linarith
  have h5 : ¬ |f - (246.94 : ℝ)| < |f - (82.41 : ℝ)| := by
    rw [e82, e246]; intro hlt; linarith
  have h6 : ¬ |f - (329.63 : ℝ)| < |f - (82.41 : ℝ)| := by
    rw [e82, e329]; intro hlt; linarith
  simp only [getClosestGuitarNote, guitarNotes, GUITAR_TUNING, List.headD_cons,
    List.foldl_cons, List.foldl_nil, closestStep]
  rw [if_neg (lt_irrefl _), if_neg h2, if_neg h3, if_neg h4, if_neg h5, if_neg h6]

lemma closestStep_foldl (f : ℝ) : ∀ (l : List (String × ℝ)) (acc : (String × ℝ) × ℝ),
    acc.2 = |f - acc.1.2| →
    (l.foldl (closestStep f) acc).2 = |f - (l.foldl (closestStep f) acc).1.2| ∧
    (l.foldl (closestStep f) acc).2 ≤ acc.2 ∧
    (∀ q ∈ l, (l.foldl (closestStep f) acc).2 ≤ |f - q.2|) ∧
    ((l.foldl (closestStep f) acc).1 = acc.1 ∨ (l.foldl (closestStep f) acc).1 ∈ l) := by
  intro l
  induction l with
  | nil =>
    intro acc hacc
    exact ⟨hacc, le_rfl, by simp, Or.inl rfl⟩
  | cons a t ih =>
    intro acc hacc
    rw [List.foldl_cons]
    by_cases hlt : |f - a.2| < acc.2
    · have hstep : closestStep f acc a = (a, |f - a.2|) := by
        rw [closestStep, if_pos hlt]
      rw [hstep]
      obtain ⟨ir, ile, iall, imem⟩ := ih (a, |f - a.2|) rfl
      refine ⟨ir, ile.trans hlt.le, ?_, ?_⟩
      · intro q hq
        rcases List.mem_cons.1 hq with rfl | hq'
        · exact ile
        · exact iall q hq'
      · rcases imem with he | hm
        · exact Or.inr (List.mem_cons.2 (Or.inl he))
        · exact Or.inr (List.mem_cons.2 (Or.inr hm))
    · have hstep : closestStep f acc a = acc := by
        rw [closestStep, if_neg hlt]
      rw [hstep]
      obtain ⟨ir, ile, iall, imem⟩ := ih acc hacc
      refine ⟨ir, ile, ?_, ?_⟩
      · intro q hq
        rcases List.mem_cons.1 hq with rfl | hq'
        · exact ile.trans (not_lt.1 hlt)
        · exact iall q hq'
      · rcases imem with he | hm
        · exact Or.inl he
        · exact Or.inr (List.mem_cons.2 (Or.inr hm))

/-- C1 (amended): for positive frequencies the analysis rounds the cents
value with JavaScript `Math.round`, i.e. `⌊x + 1/2⌋` — round half toward
positive infinity, which agrees with round-half-away-from-zero for
positive halves but rounds `-0.5` to `0` rather than `-1`; `isInTune`
holds exactly when `|cents| ≤ 5`, and the chosen note is a distance
minimizer over the reference table. -/
theorem analyzeNote_cents_spec (f conf : ℝ) (_hf : 0 < f) :
    (analyzeNote f conf).cents =
      jsRound (1200 * Real.logb 2 (f / noteFreq (analyzeNote f conf).note)) ∧
    ((analyzeNote f conf).isInTune = true ↔ |(analyzeNote f conf).cents| ≤ 5) ∧
    (|(analyzeNote f conf).cents| = 5 → (analyzeNote f conf).isInTune = true) ∧
    (|(analyzeNote f conf).cents| = 6 → (analyzeNote f conf).isInTune = false) ∧
    ∃ p ∈ guitarNotes, p.1 = (analyzeNote f conf).note ∧
      ∀ q ∈ guitarNotes, |f - p.2| ≤ |f - q.2| := by
  have htune : (analyzeNote f conf).isInTune = true ↔
      |(analyzeNote f conf).cents| ≤ 5 := by
    simp [analyzeNote, TUNING_TOLERANCE_CENTS]
  refine ⟨rfl, htune, ?_, ?_, ?_⟩
  · intro h5
    exact htune.2 (le_of_eq h5)
  · intro h6
    rw [← Bool.not_eq_true]
    intro htrue
    have hle := htune.1 htrue
    rw [h6] at hle
    norm_num at hle
  · obtain ⟨ir, _, iall, imem⟩ := closestStep_foldl f guitarNotes
      ((("E2", (82.41 : ℝ)), |f - 82.41|)) rfl
    refine ⟨(guitarNotes.foldl (closestStep f)
      ((("E2", (82.41 : ℝ)), |f - 82.41|))).1, ?_, rfl, ?_⟩
    · rcases imem with he | hm
      · rw [he]; simp [guitarNotes, GUITAR_TUNING]
      · exact hm
    · intro q hq
      rw [← ir]
      exact iall q hq

/-- C1 witness: at the reference frequency itself (`82.41`, cents `0`) the
in-tune equivalence holds. -/
theorem analyzeNote_cents_spec_witness :
    (0 : ℝ) < 82.41 ∧
    ((analyzeNote 82.41 1).isInTune = true ↔ |(analyzeNote 82.41 1).cents| ≤ 5) :=
  ⟨by norm_num, (analyzeNote_cents_spec 82.41 1 (by norm_num)).2.1⟩

/-- C1 counterexample: at `f = 82.41 · 2^(-1/2400)` the exact cents value
is `-0.5`.  `Math.round` (half toward positive infinity) yields `0`, which
is what the code stores, while the claim's round-half-away-from-zero
yields `-1`. -/
theorem analyzeNote_round_half_counterexample :
    (analyzeNote (82.41 * (2 : ℝ) ^ (-(1/2400) : ℝ)) 1).note = "E2" ∧
    (analyzeNote (82.41 * (2 : ℝ) ^ (-(1/2400) : ℝ)) 1).cents = 0 ∧
    roundHalfAwayFromZero (1200 * Real.logb 2
      ((82.41 * (2 : ℝ) ^ (-(1/2400) : ℝ)) / 82.41)) = -1 ∧
    (0 : ℤ) ≠ -1 := by
  have hlt1 : (2 : ℝ) ^ (-(1/2400) : ℝ) < 1 :=
    Real.rpow_lt_one_of_one_lt_of_neg (by norm_num) (by norm_num)
  have hpos : (0 : ℝ) < (2 : ℝ) ^ (-(1/2400) : ℝ) :=
    Real.rpow_pos_of_pos (by norm_num) _
  have hf : 82.41 * (2 : ℝ) ^ (-(1/2400) : ℝ) ≤ 82.41 := by nlinarith
  have hcn : getClosestGuitarNote (82.41 * (2 : ℝ) ^ (-(1/2400) : ℝ)) = "E2" :=
    closest_le_E2 _ hf
  have hlogb : Real.logb 2
      ((82.41 * (2 : ℝ) ^ (-(1/2400) : ℝ)) / 82.41) = -(1/2400) := by
    rw [show (82.41 * (2 : ℝ) ^ (-(1/2400) : ℝ)) / 82.41
        = (2 : ℝ) ^ (-(1/2400) : ℝ) by field_simp]
    exact Real.logb_rpow (by norm_num) (by norm_num)
  refine ⟨hcn, ?_, ?_, by norm_num⟩
  · show calculateCentsDifference (82.41 * (2 : ℝ) ^ (-(1/2400) : ℝ))
      (noteFreq (getClosestGuitarNote (82.41 * (2 : ℝ) ^ (-(1/2400) : ℝ)))) = 0
    rw [hcn, noteFreq_E2]
    unfold calculateCentsDifference
    rw [hlogb]
    norm_num [jsRound]
  · rw [hlogb]
    norm_num [roundHalfAwayFromZero]

/-- C9: for nonpositive frequencies the analysis is total and maps to the
lowest reference pitch `E2` at `82.41 Hz`, with the deterministic cents
value `Math.round(1200 · log2(f / 82.41))`. -/
theorem analyzeNote_nonpositive_spec (f conf : ℝ) (hf : f ≤ 0) :
    (analyzeNote f conf).note = "E2" ∧
    noteFreq (analyzeNote f conf).note = 82.41 ∧
    (analyzeNote f conf).cents = jsRound (1200 * Real.logb 2 (f / 82.41)) := by
  have hcn : getClosestGuitarNote f = "E2" := closest_le_E2 f (by linarith)
  have hnote : (analyzeNote f conf).note = "E2" := hcn
  refine ⟨hnote, ?_, ?_⟩
  · rw [hnote, noteFreq_E2]
  · show calculateCentsDifference f (noteFreq (getClosestGuitarNote f)) = _
    rw [hcn, noteFreq_E2]
    rfl

/-- C9 witness: the negative frequency `-1` maps to `E2`. -/
theorem analyzeNote_nonpositive_spec_witness :
    (-1 : ℝ) ≤ 0 ∧ (analyzeNote (-1) 0).note = "E2" :=
  ⟨by norm_num, (analyzeNote_nonpositive_spec (-1) 0 (by norm_num)).1⟩

end GuitarTuner
